import Mathlib

/-!
Verification development for the MediaSyncDel plugin
(src/plugins.v2/mediasyncdel/__init__.py).

The plugin code is shallowly embedded as executable Lean functions.
External collaborators (the transfer-history ledger, the
download-history store, the torrent-transfer and auto-seed plugin
stores, the downloader chain and the filesystem) are modelled as
explicit data threaded through the functions, following the interface
description of the design document (spec sections 4 and 6).  Side
effects (ledger queries and deletions, file deletions, torrent
remove/pause commands, log lines that matter to the claims) are
reified in an effect list.
-/

namespace MediaSyncDel

/-! ## String helpers mirroring the Python primitives used by the code -/

/-- Python `s.replace('\\', '/')`: replace every backslash by a forward
slash. -/
def normSlash (s : String) : String :=
  ⟨s.data.map (fun c => if c = '\\' then '/' else c)⟩

/-- Python `s.strip()`: drop leading and trailing whitespace. -/
def pyStrip (s : String) : String :=
  ⟨((s.data.dropWhile Char.isWhitespace).reverse.dropWhile Char.isWhitespace).reverse⟩

/-- Python `s.replace('//', '/')`: one left-to-right non-overlapping pass
replacing double slashes by single slashes. -/
def collapseSlashList : List Char → List Char
  | '/' :: '/' :: rest => '/' :: collapseSlashList rest
  | c :: rest => c :: collapseSlashList rest
  | [] => []

/-- String wrapper for `collapseSlashList`. -/
def collapseSlash (s : String) : String := ⟨collapseSlashList s.data⟩

/-- Python `a.lower().startswith(b.lower())`: case-insensitive prefix
test. -/
def startsWithCI (s pre : String) : Bool :=
  (pre.data.map Char.toLower).isPrefixOf (s.data.map Char.toLower)

/-- Python `needle in hay` on strings: contiguous substring test. -/
def pyInList (needle : List Char) : List Char → Bool
  | [] => needle.isEmpty
  | c :: rest => needle.isPrefixOf (c :: rest) || pyInList needle rest

/-- String wrapper for `pyInList`. -/
def pyIn (needle hay : String) : Bool := pyInList needle.data hay.data

/-- Python `line.rsplit(':', 1)` for a line known to contain a colon:
split at the last colon.  When no colon is present the whole line is
returned on the left (that case is guarded away by the caller, exactly
as in the source). -/
def rsplitColon (s : String) : String × String :=
  match (s.data.reverse).span (fun c => c ≠ ':') with
  | (afterRev, _ :: beforeRev) => (⟨beforeRev.reverse⟩, ⟨afterRev.reverse⟩)
  | (_, []) => (s, "")

/-- Python `s.split('\n')` specialised to a single separator char. -/
def splitCharList (sep : Char) : List Char → List (List Char)
  | [] => [[]]
  | c :: rest =>
    let r := splitCharList sep rest
    if c = sep then [] :: r
    else
      match r with
      | h :: t => (c :: h) :: t
      | [] => [[c]]

/-- Line splitting as used on the library-path mapping setting. -/
def splitLines (s : String) : List String :=
  (splitCharList '\n' s.data).map (fun l => ⟨l⟩)

/-- Python string comparison `a < b`: lexicographic by code point. -/
def pyLtList : List Char → List Char → Bool
  | [], [] => false
  | [], _ :: _ => true
  | _ :: _, [] => false
  | a :: as, b :: bs => if a < b then true else if b < a then false else pyLtList as bs

/-- String wrapper for `pyLtList`. -/
def pyLt (a b : String) : Bool := pyLtList a.data b.data

/-! ## PathTranslator: `_convert_path` (source lines 111-144) -/

/-- The rule loop of `_convert_path`: each line is stripped, skipped if
empty or colon-free, split at its last colon, both halves stripped and
slash-normalized, and the first rule whose source half is a
case-insensitive prefix of the input rewrites it; later rules are not
consulted. -/
def convertLoop : List String → String → String
  | [], p => p
  | line :: rest, p =>
    let l := pyStrip line
    if l = "" ∨ ¬ l.data.contains ':' then convertLoop rest p
    else
      let halves := rsplitColon l
      let winPre := normSlash (pyStrip halves.1)
      let linuxPre := normSlash (pyStrip halves.2)
      if startsWithCI p winPre then
        collapseSlash ⟨linuxPre.data ++ p.data.drop winPre.data.length⟩
      else convertLoop rest p

/-- `_convert_path(media_path)` with the `library_path` setting made an
explicit first argument.  Empty input is returned unchanged, backslashes
are normalized, and the mapping lines are tried in configured order. -/
def _convert_path (library_path : String) (media_path : String) : String :=
  if media_path = "" then media_path
  else
    let p := normSlash media_path
    if library_path = "" then p
    else convertLoop (splitLines library_path) p

/-! ## Data model

Records of the external stores, following the collaborator interfaces
of spec sections 3 and 6.  Python falsy string fields (None or the
empty string) are modelled as the empty string; optional numeric or
textual fields are `Option`. -/

/-- One row of the download-history file store
(`DownloadFiles`: id, download hash, full path, state, downloader).
`state = 1` marks a file the user kept. -/
structure DFile where
  id : Nat
  download_hash : String
  fullpath : String
  state : Int
  downloader : String
deriving Repr, DecidableEq

/-- One row of the transfer-history ledger (spec: TransferRecord). -/
structure TransferRec where
  id : Nat
  type : String
  title : String
  dest : String
  src : String
  tmdbid : Option Int
  season : Option String
  episode : Option String
  download_hash : String
  date : String
deriving Repr, DecidableEq

/-- A link record of the TorrentTransfer collaborator store. -/
structure TTRec where
  to_download : String
  to_download_id : String
  delete_source : Bool
deriving Repr, DecidableEq

/-- A link record of the IYUUAutoSeed collaborator store: a downloader
name (empty when missing) and the linked torrent ids (empty when
missing). -/
structure SeedRec where
  downloader : String
  torrents : List String
deriving Repr, DecidableEq

/-- The IYUUAutoSeed key-value store: torrent id to link records. -/
abbrev SeedStore := List (String × List SeedRec)

/-- Modelled from the spec: collaborator key-value store get
(spec section 6); a missing key yields the empty list, as the code
replaces a missing value with `[]`. -/
def lookupSeed (s : SeedStore) (k : String) : List SeedRec :=
  match s.find? (fun p => p.1 = k) with
  | some p => p.2
  | none => []

/-- Modelled from the spec: collaborator key-value store delete
(spec section 6). -/
def eraseSeed (s : SeedStore) (k : String) : SeedStore :=
  s.filter (fun p => p.1 ≠ k)

/-- Modelled from the spec: TorrentTransfer store get (spec
section 6). -/
def lookupTT (s : List (String × TTRec)) (k : String) : Option TTRec :=
  match s.find? (fun p => p.1 = k) with
  | some p => some p.2
  | none => none

/-- Modelled from the spec: TorrentTransfer store delete. -/
def eraseTT (s : List (String × TTRec)) (k : String) : List (String × TTRec) :=
  s.filter (fun p => p.1 ≠ k)

/-- Modelled from the spec: download-history `filesByHash` (spec
section 6), returning the file rows of one torrent hash in store
order. -/
def filesByHash (dh : List DFile) (hash : String) : List DFile :=
  dh.filter (fun f => f.download_hash = hash)

/-- Modelled from the spec: download-history `filesByFullPath` (spec
section 6). -/
def filesByFullpath (dh : List DFile) (p : String) : List DFile :=
  dh.filter (fun f => f.fullpath = p)

/-- Modelled from the spec: download-history `deleteByFullPath` (spec
section 6); the host soft-deletes, clearing the kept state of the rows
at that path. -/
def deleteByFullPath (dh : List DFile) (p : String) : List DFile :=
  dh.map (fun f => if f.fullpath = p ∧ f.state = 1 then { f with state := 0 } else f)

/-- The number of files of a torrent still marked kept
(`int(download_file.state) == 1`, source lines 561-564). -/
def keptCount (files : List DFile) : Nat :=
  files.countP (fun f => f.state == 1)

/-- Reified side effects of one reconciliation. -/
inductive Eff where
  | queryLedger
  | delLedger (id : Nat)
  | delFile (p : String)
  | pruneParents (p : String)
  | fsError (p : String)
  | removeTorrent (h : String) (d : Option String)
  | stopTorrent (h : String) (d : Option String)
  | seedDelError
  | appendHistory
deriving Repr, DecidableEq

/-- True exactly on pause commands. -/
def Eff.isStop : Eff → Bool
  | .stopTorrent _ _ => true
  | _ => false

/-- True exactly on ledger-row deletions. -/
def Eff.isDelLedger : Eff → Bool
  | .delLedger _ => true
  | _ => false

/-- The heterogeneous third component of `handle_torrent`: the Python
code returns the integer `0` on its error path, `None` when the seed
cascade returned `None`, and otherwise the accumulated id list. -/
inductive TorrentHashes where
  | zero
  | null
  | ids (l : List String)
deriving Repr, DecidableEq

/-- Convert the optional accumulator of the cascades to the
`handle_torrent` result component. -/
def toHashes : Option (List String) → TorrentHashes
  | none => .null
  | some l => .ids l

/-- Outcome of one call of `__del_seed`: `div` models unbounded
recursion (the fuel ran out; in Python the stack would grow until
RecursionError), `exc` models an uncaught exception escaping the frame
(AttributeError from appending to None), and `ret` is a normal Python
return value (None or the accumulated list). -/
inductive SeedRes where
  | div
  | exc
  | ret (r : Option (List String))
deriving Repr, DecidableEq

/-- Outcome of the record loop inside `__del_seed`: divergence, an
escaping exception, the early `return` on a malformed record, or normal
completion with the current accumulator. -/
inductive HRes where
  | div
  | exc
  | earlyRet
  | done (acc : Option (List String))
deriving Repr, DecidableEq

/-! ## Cross-seed cascade: `__del_seed` (source lines 638-657)

The recursion is embedded with explicit fuel: each Python stack frame
consumes one unit, and the two in-frame loops are structural list
recursions parameterized by the continuation for child frames. -/

/-- The torrent loop of `__del_seed` (source lines 648-654): append the
torrent id, issue remove or stop, and recurse; appending to a None
accumulator raises (AttributeError). -/
def seedTorrentsF (f : SeedStore → List Eff → String → Bool → List String →
    SeedStore × List Eff × SeedRes) :
    SeedStore → List Eff → List String → String → Bool → Option (List String) →
    SeedStore × List Eff × HRes
  | seed, ops, [], _, _, acc => (seed, ops, .done acc)
  | seed, ops, t :: rest, downloader, delete_flag, acc =>
    match acc with
    | none => (seed, ops, .exc)
    | some l =>
      let ops1 := ops ++ [if delete_flag then Eff.removeTorrent t (some downloader)
                          else Eff.stopTorrent t (some downloader)]
      match f seed ops1 t delete_flag (l ++ [t]) with
      | (s1, o1, .div) => (s1, o1, .div)
      | (s1, o1, .exc) => (s1, o1, .exc)
      | (s1, o1, .ret a) => seedTorrentsF f s1 o1 rest downloader delete_flag a

/-- The record loop of `__del_seed` (source lines 643-654): a record
with a missing downloader or missing torrent list triggers the bare
`return` (early return of None). -/
def seedHistsF (f : SeedStore → List Eff → String → Bool → List String →
    SeedStore × List Eff × SeedRes) :
    SeedStore → List Eff → List SeedRec → Bool → Option (List String) →
    SeedStore × List Eff × HRes
  | seed, ops, [], _, acc => (seed, ops, .done acc)
  | seed, ops, h :: rest, delete_flag, acc =>
    if h.downloader = "" ∨ h.torrents = [] then (seed, ops, .earlyRet)
    else
      match seedTorrentsF f seed ops h.torrents h.downloader delete_flag acc with
      | (s1, o1, .div) => (s1, o1, .div)
      | (s1, o1, .exc) => (s1, o1, .exc)
      | (s1, o1, .earlyRet) => (s1, o1, .earlyRet)
      | (s1, o1, .done a) => seedHistsF f s1 o1 rest delete_flag a

/-- `__del_seed(download_id, delete_flag, handle_torrent_hashs)`:
look up the collaborator link records for this id, walk them, and on
normal completion clear the link set when the action was remove.  There
is no visited set; child frames receive one unit of fuel less. -/
def __del_seed : Nat → SeedStore → List Eff → String → Bool → List String →
    SeedStore × List Eff × SeedRes
  | 0, seed, ops, _, _, _ => (seed, ops, .div)
  | fuel + 1, seed, ops, download_id, delete_flag, acc =>
    match lookupSeed seed download_id with
    | [] => (seed, ops, .ret (some acc))
    | h :: hs =>
      match seedHistsF (__del_seed fuel) seed ops (h :: hs) delete_flag (some acc) with
      | (s1, o1, .div) => (s1, o1, .div)
      | (s1, o1, .exc) => (s1, o1, .exc)
      | (s1, o1, .earlyRet) => (s1, o1, .ret none)
      | (s1, o1, .done a) =>
        (if delete_flag then eraseSeed s1 download_id else s1, o1, .ret a)

/-! ## Collection cascade: `__del_collection` (source lines 611-636) -/

/-- The sibling loop of `__del_collection`.  The decision flag is a
loop variable: a sibling with kept files downgrades it to pause for the
rest of the loop.  Exceptions inside the surrounding try block
(IndexError on an empty current file list, AttributeError on appending
to None, and RecursionError or AttributeError escaping `__del_seed`)
are caught and return the current accumulator. -/
def colLoop (f : SeedStore → List Eff → String → Bool → List String →
    SeedStore × List Eff × SeedRes) (dh : List DFile) :
    List DFile → SeedStore → List Eff → Bool → String → List DFile →
    Option (List String) → SeedStore × List Eff × Option (List String)
  | [], seed, ops, _, _, _, acc => (seed, ops, acc)
  | g :: rest, seed, ops, delete_flag, torrent_hash, download_files, acc =>
    if g.download_hash ≠ "" ∧ g.download_hash ≠ torrent_hash then
      match filesByHash dh g.download_hash with
      | [] => colLoop f dh rest seed ops delete_flag torrent_hash download_files acc
      | h0 :: hs =>
        if (h0 :: hs).length > download_files.length then
          match download_files.getLast? with
          | none => (seed, ops, acc)
          | some dl =>
            if h0.id > dl.id then
              let noDel := keptCount (h0 :: hs)
              let flag1 := if noDel > 0 then false else delete_flag
              let ops1 := ops ++ [if flag1 then Eff.removeTorrent g.download_hash (some g.downloader)
                                  else Eff.stopTorrent g.download_hash (some g.downloader)]
              match acc with
              | none => (seed, ops1, none)
              | some l =>
                match f seed ops1 g.download_hash flag1 (l ++ [g.download_hash]) with
                | (s1, o1, .div) => (s1, o1, some (l ++ [g.download_hash]))
                | (s1, o1, .exc) => (s1, o1, some (l ++ [g.download_hash]))
                | (s1, o1, .ret a) => colLoop f dh rest s1 o1 flag1 torrent_hash download_files a
            else colLoop f dh rest seed ops delete_flag torrent_hash download_files acc
        else colLoop f dh rest seed ops delete_flag torrent_hash download_files acc
    else colLoop f dh rest seed ops delete_flag torrent_hash download_files acc

/-- `__del_collection(src, delete_flag, torrent_hash, download_files,
handle_torrent_hashs)`: inspect every download file sharing the source
path and re-run the disposal decision on qualifying sibling
torrents. -/
def __del_collection (fuel : Nat) (dh : List DFile) (seed : SeedStore) (ops : List Eff)
    (src : String) (delete_flag : Bool) (torrent_hash : String)
    (download_files : List DFile) (acc : Option (List String)) :
    SeedStore × List Eff × Option (List String) :=
  colLoop (__del_seed fuel) dh (filesByFullpath dh src) seed ops delete_flag
    torrent_hash download_files acc

/-! ## Torrent disposal entry point: `handle_torrent` (source lines 547-609) -/

/-- Mutable collaborator state read and written by the disposal
engine: the download-history file store, the TorrentTransfer store and
the IYUUAutoSeed store.  The filesystem is not touched by
`handle_torrent`. -/
structure DState where
  dh : List DFile
  tt : List (String × TTRec)
  seed : SeedStore
deriving Repr, DecidableEq

/-- The primary remove-or-pause commands of `handle_torrent` (source
lines 572-595): the TorrentTransfer redirection branch when a transfer
record exists for the default-downloader key, otherwise the plain
branch; returns the new TorrentTransfer store, the commands, the
accumulated ids and the id used for the seed cascade. -/
def primaryDisposal (ttStore : List (String × TTRec)) (history_key : String)
    (delete_flag : Bool) (torrent_hash : String) :
    List (String × TTRec) × List Eff × List String × String :=
  match lookupTT ttStore history_key with
  | some t =>
    if delete_flag then
      (eraseTT ttStore history_key,
       (if ¬ t.delete_source then [Eff.removeTorrent torrent_hash none] else []) ++
         [Eff.removeTorrent torrent_hash (some t.to_download)],
       (if ¬ t.delete_source then [torrent_hash] else []) ++ [t.to_download_id],
       t.to_download_id)
    else
      (ttStore,
       (if ¬ t.delete_source then [Eff.stopTorrent torrent_hash none] else []) ++
         [Eff.stopTorrent t.to_download_id (some t.to_download)],
       (if ¬ t.delete_source then [torrent_hash] else []) ++ [t.to_download_id],
       t.to_download_id)
  | none =>
    (ttStore,
     [if delete_flag then Eff.removeTorrent torrent_hash none
      else Eff.stopTorrent torrent_hash none],
     [torrent_hash],
     torrent_hash)

/-- `handle_torrent(type, src, torrent_hash)`.  Queries the files of
the hash after soft-deleting the rows at the source path; zero kept
files give the remove decision, otherwise pause; then the TorrentTransfer
redirection branch, the cross-seed cascade and for TV the collection
cascade.  Every exception (including RecursionError from an unbounded
cascade) is caught and turned into the `(False, False, 0)` error
result. -/
def handle_torrent (fuel : Nat) (st : DState) (default_downloader : String)
    (type : String) (src : String) (torrent_hash : String) :
    DState × List Eff × (Bool × Bool × TorrentHashes) :=
  let history_key := default_downloader ++ "-" ++ torrent_hash
  let dh1 := deleteByFullPath st.dh src
  let download_files := filesByHash dh1 torrent_hash
  if download_files.isEmpty then
    ({ st with dh := dh1 }, [], (false, false, .zero))
  else
    let delete_flag : Bool := keptCount download_files == 0
    match primaryDisposal st.tt history_key delete_flag torrent_hash with
    | (tt1, ops1, acc1, download_id) =>
      match __del_seed fuel st.seed ops1 download_id delete_flag acc1 with
      | (seed1, ops2, .div) =>
        ({ dh := dh1, tt := tt1, seed := seed1 }, ops2, (false, false, .zero))
      | (seed1, ops2, .exc) =>
        ({ dh := dh1, tt := tt1, seed := seed1 }, ops2, (false, false, .zero))
      | (seed1, ops2, .ret acc2) =>
        if type = "电视剧" then
          match __del_collection fuel dh1 seed1 ops2 src delete_flag torrent_hash
              download_files acc2 with
          | (seed2, ops3, acc3) =>
            ({ dh := dh1, tt := tt1, seed := seed2 }, ops3,
             (delete_flag, true, toHashes acc3))
        else
          ({ dh := dh1, tt := tt1, seed := seed1 }, ops2,
           (delete_flag, true, toHashes acc2))

/-! ## HistoryMatcher: `__get_transfer_his` (source lines 492-521) and
the path fallback of `__sync_del` (source lines 356-362) -/

/-- A ledger query: provided fields must match exactly, absent fields
are unconstrained. -/
structure LQuery where
  tmdbid : Option Int := none
  mtype : Option String := none
  season : Option String := none
  episode : Option String := none
  dest : Option String := none

/-- Modelled from the spec: the ledger store findBy operation
(spec sections 4.3 and 6): return every record matching all provided
fields. -/
def getBy (ledger : List TransferRec) (q : LQuery) : List TransferRec :=
  ledger.filter (fun r =>
    (match q.tmdbid with | none => true | some t => r.tmdbid = some t) &&
    (match q.mtype with | none => true | some m => r.type = m) &&
    (match q.season with | none => true | some s => r.season = some s) &&
    (match q.episode with | none => true | some e => r.episode = some e) &&
    (match q.dest with | none => true | some d => r.dest = d))

/-- Python `str(n).rjust(2, '0')` on a nonempty digit string. -/
def padLeft2 (v : String) : String :=
  if v.length ≥ 2 then v else "0" ++ v

/-- The season and episode normalization of `__get_transfer_his`
(source lines 494-499): keep only nonempty all-digit values, padded to
two characters. -/
def normNum2 : Option String → Option String
  | none => none
  | some v => if v ≠ "" ∧ v.data.all Char.isDigit then some (padLeft2 v) else none

/-- Python `tmdb_id and str(tmdb_id).isdigit()` on an optional
integer: zero is falsy, negative values render with a minus sign. -/
def tmdbDigit : Option Int → Bool
  | none => false
  | some n => n > 0

/-- `__get_transfer_his`: the tiered identity lookup.  Returns the log
tag, the matched records and the number of ledger queries issued. -/
def __get_transfer_his (ledger : List TransferRec) (media_type media_name media_path : String)
    (tmdb_id : Option Int) (season_num episode_num : Option String) :
    String × List TransferRec × Nat :=
  let s := normNum2 season_num
  let e := normNum2 episode_num
  let mtype := if media_type = "Movie" ∨ media_type = "MOV" then "电影" else "电视剧"
  if mtype = "电影" then
    ("电影 " ++ media_name,
     getBy ledger { tmdbid := tmdb_id, mtype := some mtype, dest := some media_path }, 1)
  else
    match s, e with
    | none, none =>
      ("剧集 " ++ media_name, getBy ledger { tmdbid := tmdb_id, mtype := some mtype }, 1)
    | some sv, none =>
      if tmdbDigit tmdb_id then
        ("剧集 " ++ media_name ++ " S" ++ sv,
         getBy ledger { tmdbid := tmdb_id, mtype := some mtype, season := some ("S" ++ sv) }, 1)
      else
        ("剧集 " ++ media_name ++ " S" ++ sv,
         getBy ledger { mtype := some mtype, season := some ("S" ++ sv),
                        dest := some media_path }, 1)
    | some sv, some ev =>
      ("剧集 " ++ media_name ++ " S" ++ sv ++ "E" ++ ev,
       getBy ledger { tmdbid := tmdb_id, mtype := some mtype, season := some ("S" ++ sv),
                      episode := some ("E" ++ ev), dest := some media_path }, 1)
    | none, some _ => ("", [], 0)

/-- A canonical deletion event as consumed by `__sync_del`. -/
structure DelEvent where
  media_type : String
  media_name : String
  media_path : String
  tmdb_id : Option Int
  season_num : Option String
  episode_num : Option String
  delete_time : Option String
deriving Repr, DecidableEq

/-- The full two-tier match of `__sync_del` (source lines 348-362):
identity tier first, then, exactly when it yielded nothing, the query
by exact destination path alone. -/
def matchRecords (ledger : List TransferRec) (ev : DelEvent) :
    String × List TransferRec × Nat :=
  match __get_transfer_his ledger ev.media_type ev.media_name ev.media_path
      ev.tmdb_id ev.season_num ev.episode_num with
  | (msg, hist1, q1) =>
    if hist1.isEmpty then
      let hist2 := getBy ledger { dest := some ev.media_path }
      (if hist2.isEmpty then msg else "路径匹配 " ++ ev.media_name, hist2, q1 + 1)
    else (msg, hist1, q1)

/-! ## ReconciliationOrchestrator: `__sync_del` (source lines 331-478) -/

/-- The fold computing the transfer date of
`max(transfer_history, key=lambda x: x.date)` (source line 370). -/
def maxDateFold (b : String) (rs : List TransferRec) : String :=
  rs.foldl (fun d x => if pyLt d x.date then x.date else d) b

/-- The timestamp guard of `__sync_del` (source lines 368-374): abort
when the newest matched transfer postdates the deletion event; the
bare except turns a failing max (empty list) into a pass. -/
def tsGuardAborts (dt : Option String) (hist : List TransferRec) : Bool :=
  match dt, hist with
  | some t, r :: rs => pyLt t (maxDateFold r.date rs)
  | _, _ => false

/-- The filesystem together with the disposal-engine stores: the full
mutable state threaded through the record loop. -/
structure WState where
  fs : List String
  ds : DState
deriving Repr, DecidableEq

/-- Static configuration and collaborator data of one reconciliation.
`fsDeleteFails` is the set of paths whose physical deletion raises an
error (spec section 7, PartialFailure). -/
structure Env where
  st : WState
  ledger : List TransferRec
  default_downloader : String
  del_source : Bool
  fsDeleteFails : List String
deriving Repr, DecidableEq

/-- The guarded source-file deletion of source lines 400-406: delete
the physical file only if it still exists; an error raised by the
deletion is caught and logged (the `fsError` effect) and the pruning
of empty parent directories is skipped. -/
def fsDeleteStep (env : Env) (fs : List String) (src : String) :
    List String × List Eff :=
  if fs.contains src then
    if env.fsDeleteFails.contains src then (fs, [Eff.fsError src])
    else (fs.filter (· ≠ src), [Eff.delFile src, Eff.pruneParents src])
  else (fs, [])

/-- Per-record processing (the loop body of source lines 384-421):
path or title check, ledger-row deletion, guarded source-file deletion
with its caught errors, and the torrent disposal with its error
counting.  A successful disposal whose id component is None or the
integer 0 makes the `extend` call raise TypeError, caught by the
enclosing except which logs the failure (`seedDelError`) without
incrementing the error count. -/
def processOne (fuel : Nat) (env : Env) (ev : DelEvent) (st : WState)
    (r : TransferRec) : WState × List Eff × Nat :=
  if r.dest ≠ ev.media_path ∧ ¬ pyIn r.title ev.media_name then (st, [], 0)
  else
    let e0 := [Eff.delLedger r.id]
    if env.del_source ∧ r.src ≠ "" then
      match fsDeleteStep env st.fs r.src with
      | (fs1, fsEffs) =>
        if r.download_hash ≠ "" then
          match handle_torrent fuel st.ds env.default_downloader r.type r.src
              r.download_hash with
          | (ds1, ops, (_, success, hashes)) =>
            if success then
              match hashes with
              | .ids _ => (⟨fs1, ds1⟩, e0 ++ fsEffs ++ ops, 0)
              | _ => (⟨fs1, ds1⟩, e0 ++ fsEffs ++ ops ++ [Eff.seedDelError], 0)
            else (⟨fs1, ds1⟩, e0 ++ fsEffs ++ ops, 1)
        else (⟨fs1, st.ds⟩, e0 ++ fsEffs, 0)
    else (st, e0, 0)

/-- The record loop of `__sync_del`, threading collaborator state. -/
def processRecords (fuel : Nat) (env : Env) (ev : DelEvent) :
    WState → List TransferRec → WState × List Eff × Nat
  | st, [] => (st, [], 0)
  | st, r :: rs =>
    match processOne fuel env ev st r with
    | (st1, e, n) =>
      match processRecords fuel env ev st1 rs with
      | (st2, es, ns) => (st2, e ++ es, n + ns)

/-- `__sync_del(media_type, media_name, media_path, tmdb_id,
season_num, episode_num, delete_time)`: the reconciliation entry
point.  Returns the reified effects and the reported error count. -/
def __sync_del (fuel : Nat) (env : Env) (ev : DelEvent) : List Eff × Nat :=
  if ev.media_type = "" then ([], 0)
  else if env.st.fs.contains ev.media_path then ([], 0)
  else
    match matchRecords env.ledger ev with
    | (_, hist, q) =>
      let qEffs := List.replicate q Eff.queryLedger
      if hist.isEmpty then (qEffs, 0)
      else if tsGuardAborts ev.delete_time hist then (qEffs, 0)
      else
        match processRecords fuel env ev env.st hist with
        | (_, effs, errs) => (qEffs ++ effs ++ [Eff.appendHistory], errs)

/-! ## Concrete collaborator data used by the closed evaluations -/

/-- A cyclic auto-seed store: torrent A links to B and B back to A. -/
def cycSeedStore : SeedStore := [("A", [⟨"d", ["B"]⟩]), ("B", [⟨"d", ["A"]⟩])]

/-- Two files of one torrent, both currently kept. -/
def twoFileDh : List DFile :=
  [⟨1, "h", "/s/a.mkv", 1, "d"⟩, ⟨2, "h", "/s/b.mkv", 1, "d"⟩]

/-- Disposal state for the two-file torrent. -/
def twoFileDs : DState := ⟨twoFileDh, [], []⟩

/-- Shared source path of the collection-cascade scenario. -/
def colSrc : String := "/src/e1"

/-- Download-history rows of the collection-cascade scenario: two
sibling torrents h1 and h2 share the source path; h1 has one kept
file, h2 has none; both qualify by size and id ordering. -/
def colDh : List DFile :=
  [⟨2, "h1", colSrc, 0, "d"⟩, ⟨3, "h2", colSrc, 0, "d"⟩,
   ⟨10, "h1", "/o/a", 1, "d"⟩, ⟨11, "h1", "/o/b", 0, "d"⟩,
   ⟨20, "h2", "/o/c", 0, "d"⟩, ⟨21, "h2", "/o/d", 0, "d"⟩]

/-- File set of the torrent currently being disposed of in the
collection-cascade scenario. -/
def colCurFiles : List DFile := [⟨1, "h0", colSrc, 0, "d"⟩]

/-- An auto-seed store whose entry for torrent A has a record with a
missing downloader name. -/
def badSeedStore : SeedStore := [("A", [⟨"", ["X"]⟩])]

/-- Disposal state around `badSeedStore`: one already-deleted file for
hash A. -/
def badSeedDs : DState := ⟨[⟨1, "A", "/p/f.mkv", 0, "d"⟩], [], badSeedStore⟩

/-- An auto-seed store where the malformed record sits one level down,
with a sibling torrent still pending in the parent frame. -/
def nestedBadSeedStore : SeedStore :=
  [("A", [⟨"d", ["T1", "T2"]⟩]), ("T1", [⟨"", ["X"]⟩])]

/-- Disposal state around `nestedBadSeedStore`. -/
def nestedBadDs : DState := ⟨[⟨1, "A", "/p/f.mkv", 0, "d"⟩], [], nestedBadSeedStore⟩

/-- Ledger record matched only by its destination path: its stored
external id differs from the one of the event. -/
def pathOnlyRec : TransferRec :=
  ⟨7, "电影", "Show", "/media/emby/Show/S01E01.mkv", "/dl/s.mkv", some 999,
   none, none, "h", "2024-01-01"⟩

/-- Deletion event whose identity tier misses `pathOnlyRec`. -/
def pathOnlyEv : DelEvent :=
  ⟨"Movie", "Show", "/media/emby/Show/S01E01.mkv", some 123, none, none, none⟩

/-- Environment of the race-guard scenario: the canonical path still
exists on the filesystem. -/
def raceEnv : Env := ⟨⟨["/media/x.mkv"], ⟨[], [], []⟩⟩, [pathOnlyRec], "dl", true, []⟩

/-- Deletion event whose canonical path still exists. -/
def raceEv : DelEvent := ⟨"Movie", "X", "/media/x.mkv", none, none, none, none⟩

/-- Ledger record transferred after the deletion event. -/
def newerRec : TransferRec :=
  ⟨7, "电影", "Show", "/m/a.mkv", "", none, none, none, "", "2024-06-01"⟩

/-- Environment of the timestamp-guard scenario. -/
def newerEnv : Env := ⟨⟨[], ⟨[], [], []⟩⟩, [newerRec], "dl", true, []⟩

/-- Deletion event older than the transfer of `newerRec`. -/
def newerEv : DelEvent := ⟨"Movie", "Show", "/m/a.mkv", none, none, none, some "2024-01-01"⟩

/-- Ledger record whose source file exists but cannot be deleted. -/
def fsFailRec : TransferRec :=
  ⟨7, "电影", "Show", "/m/a.mkv", "/dl/a.mkv", none, none, none, "", "2024-01-01"⟩

/-- Environment where deleting `/dl/a.mkv` raises a filesystem
error. -/
def fsFailEnv : Env :=
  ⟨⟨["/dl/a.mkv"], ⟨[], [], []⟩⟩, [fsFailRec], "dl", true, ["/dl/a.mkv"]⟩

/-- Deletion event matching `fsFailRec`. -/
def fsFailEv : DelEvent := ⟨"Movie", "Show", "/m/a.mkv", none, none, none, none⟩

/-- Ledger record whose download hash has no files in the
download-history store, so its disposal reports failure. -/
def dlFailRec : TransferRec :=
  ⟨8, "电影", "Show", "/m/a.mkv", "/dl/b.mkv", none, none, none, "ZZ", "2024-01-01"⟩

/-- Environment of the counted downloader-failure scenario. -/
def dlFailEnv : Env := ⟨⟨[], ⟨[], [], []⟩⟩, [dlFailRec], "dl", true, []⟩

/-- Ledger record whose torrent has the malformed auto-seed entry. -/
def seedNullRec : TransferRec :=
  ⟨7, "电影", "Show", "/m/a.mkv", "/p/f.mkv", none, none, none, "A", "2024-01-01"⟩

/-- Environment of the None-propagation scenario. -/
def seedNullEnv : Env := ⟨⟨[], badSeedDs⟩, [seedNullRec], "dl", true, []⟩

/-- Deletion event matching `seedNullRec`. -/
def seedNullEv : DelEvent := ⟨"Movie", "Show", "/m/a.mkv", none, none, none, none⟩

/-- Dropping the injected filesystem failures from an environment. -/
def clearFs (env : Env) : Env := { env with fsDeleteFails := [] }

/-- New effects are justified over a base effect list when every
element is either from the base or a pause command. -/
def StopExt (ops ops' : List Eff) : Prop :=
  ∀ e ∈ ops', e ∈ ops ∨ e.isStop = true


theorem stopExt_refl (o : List Eff) : StopExt o o := fun _ he => Or.inl he

theorem stopExt_trans {a b c : List Eff} (h1 : StopExt a b) (h2 : StopExt b c) :
    StopExt a c := by
  intro e he
  rcases h2 e he with h | h
  · exact h1 e h
  · exact Or.inr h

theorem stopExt_snoc_stop (o : List Eff) (h : String) (d : Option String) :
    StopExt o (o ++ [Eff.stopTorrent h d]) := by
  intro e he
  rcases List.mem_append.1 he with h1 | h1
  · exact Or.inl h1
  · rcases List.mem_singleton.1 h1 with rfl
    exact Or.inr rfl

theorem seedTorrentsF_stopExt
    (f : SeedStore → List Eff → String → Bool → List String → SeedStore × List Eff × SeedRes)
    (hf : ∀ s o id acc, StopExt o (f s o id false acc).2.1) :
    ∀ (ts : List String) (s : SeedStore) (o : List Eff) (dl : String)
      (acc : Option (List String)),
      StopExt o (seedTorrentsF f s o ts dl false acc).2.1 := by
  intro ts
  induction ts with
  | nil => intro s o dl acc; exact stopExt_refl o
  | cons t rest ih =>
    intro s o dl acc
    cases acc with
    | none => exact stopExt_refl o
    | some l =>
      simp only [seedTorrentsF]
      rw [if_neg Bool.false_ne_true]
      have h1 : StopExt o (o ++ [Eff.stopTorrent t (some dl)]) := stopExt_snoc_stop o t (some dl)
      rcases hE : f s (o ++ [Eff.stopTorrent t (some dl)]) t false (l ++ [t]) with ⟨s1, o1, r⟩
      have h2 : StopExt (o ++ [Eff.stopTorrent t (some dl)]) o1 := by
        have := hf s (o ++ [Eff.stopTorrent t (some dl)]) t (l ++ [t])
        rw [hE] at this; exact this
      cases r with
      | div => exact stopExt_trans h1 h2
      | exc => exact stopExt_trans h1 h2
      | ret a => exact stopExt_trans (stopExt_trans h1 h2) (ih s1 o1 dl a)

theorem seedHistsF_stopExt
    (f : SeedStore → List Eff → String → Bool → List String → SeedStore × List Eff × SeedRes)
    (hf : ∀ s o id acc, StopExt o (f s o id false acc).2.1) :
    ∀ (hists : List SeedRec) (s : SeedStore) (o : List Eff)
      (acc : Option (List String)),
      StopExt o (seedHistsF f s o hists false acc).2.1 := by
  intro hists
  induction hists with
  | nil => intro s o acc; exact stopExt_refl o
  | cons h rest ih =>
    intro s o acc
    simp only [seedHistsF]
    by_cases hc : h.downloader = "" ∨ h.torrents = []
    · rw [if_pos hc]; exact stopExt_refl o
    · rw [if_neg hc]
      rcases hE : seedTorrentsF f s o h.torrents h.downloader false acc with ⟨s1, o1, r⟩
      have h2 : StopExt o o1 := by
        have := seedTorrentsF_stopExt f hf h.torrents s o h.downloader acc
        rw [hE] at this; exact this
      cases r with
      | div => exact h2
      | exc => exact h2
      | earlyRet => exact h2
      | done a => exact stopExt_trans h2 (ih s1 o1 a)

theorem del_seed_stopExt (fuel : Nat) :
    ∀ (s : SeedStore) (o : List Eff) (id : String) (acc : List String),
      StopExt o (__del_seed fuel s o id false acc).2.1 := by
  induction fuel with
  | zero => intro s o id acc; exact stopExt_refl o
  | succ n ih =>
    intro s o id acc
    simp only [__del_seed]
    cases hL : lookupSeed s id with
    | nil => exact stopExt_refl o
    | cons h hs =>
      dsimp only
      rcases hE : seedHistsF (__del_seed n) s o (h :: hs) false (some acc) with ⟨s1, o1, r⟩
      have h2 : StopExt o o1 := by
        have := seedHistsF_stopExt (__del_seed n) (fun s o id acc => ih s o id acc)
          (h :: hs) s o (some acc)
        rw [hE] at this; exact this
      cases r with
      | div => exact h2
      | exc => exact h2
      | earlyRet => exact h2
      | done a => exact h2



theorem stopExt_all {o o' : List Eff} (h1 : ∀ e ∈ o, Eff.isStop e = true)
    (h2 : StopExt o o') : ∀ e ∈ o', Eff.isStop e = true := by
  intro e he
  rcases h2 e he with h | h
  · exact h1 e h
  · exact h

theorem colLoop_stopExt
    (f : SeedStore → List Eff → String → Bool → List String → SeedStore × List Eff × SeedRes)
    (hf : ∀ s o id acc, StopExt o (f s o id false acc).2.1) (dh : List DFile) :
    ∀ (files : List DFile) (s : SeedStore) (o : List Eff) (hash : String)
      (dfiles : List DFile) (acc : Option (List String)),
      StopExt o (colLoop f dh files s o false hash dfiles acc).2.1 := by
  intro files
  induction files with
  | nil => intro s o hash dfiles acc; exact stopExt_refl o
  | cons g rest ih =>
    intro s o hash dfiles acc
    simp only [colLoop]
    by_cases hc : g.download_hash ≠ "" ∧ g.download_hash ≠ hash
    · rw [if_pos hc]
      cases hF : filesByHash dh g.download_hash with
      | nil => exact ih s o hash dfiles acc
      | cons h0 hs =>
        dsimp only
        by_cases hlen : (h0 :: hs).length > dfiles.length
        · rw [if_pos hlen]
          cases hG : dfiles.getLast? with
          | none => exact stopExt_refl o
          | some dl =>
            dsimp only
            by_cases hid : h0.id > dl.id
            · rw [if_pos hid]
              simp only [ite_self]
              rw [if_neg Bool.false_ne_true]
              cases acc with
              | none => exact stopExt_snoc_stop o g.download_hash (some g.downloader)
              | some l =>
                dsimp only
                have h1 : StopExt o (o ++ [Eff.stopTorrent g.download_hash (some g.downloader)]) :=
                  stopExt_snoc_stop o g.download_hash (some g.downloader)
                rcases hE : f s (o ++ [Eff.stopTorrent g.download_hash (some g.downloader)])
                    g.download_hash false (l ++ [g.download_hash]) with ⟨s1, o1, r⟩
                have h2 : StopExt (o ++ [Eff.stopTorrent g.download_hash (some g.downloader)]) o1 := by
                  have := hf s (o ++ [Eff.stopTorrent g.download_hash (some g.downloader)])
                    g.download_hash (l ++ [g.download_hash])
                  rw [hE] at this; exact this
                cases r with
                | div => exact stopExt_trans h1 h2
                | exc => exact stopExt_trans h1 h2
                | ret a =>
                  exact stopExt_trans (stopExt_trans h1 h2) (ih s1 o1 hash dfiles a)
            · rw [if_neg hid]
              exact ih s o hash dfiles acc
        · rw [if_neg hlen]
          exact ih s o hash dfiles acc
    · rw [if_neg hc]
      exact ih s o hash dfiles acc

theorem del_collection_stopExt (fuel : Nat) (dh : List DFile) (s : SeedStore)
    (o : List Eff) (src hash : String) (dfiles : List DFile)
    (acc : Option (List String)) :
    StopExt o (__del_collection fuel dh s o src false hash dfiles acc).2.1 :=
  colLoop_stopExt (__del_seed fuel) (fun s o id acc => del_seed_stopExt fuel s o id acc)
    dh (filesByFullpath dh src) s o hash dfiles acc

theorem primaryDisposal_stops (ttStore : List (String × TTRec)) (k hash : String) :
    ∀ e ∈ (primaryDisposal ttStore k false hash).2.1, Eff.isStop e = true := by
  intro e he
  simp only [primaryDisposal] at he
  cases hT : lookupTT ttStore k with
  | none =>
    rw [hT] at he
    dsimp only at he
    rw [if_neg Bool.false_ne_true] at he
    rcases List.mem_singleton.1 he with rfl
    rfl
  | some t =>
    rw [hT] at he
    dsimp only at he
    rw [if_neg Bool.false_ne_true] at he
    dsimp only at he
    rcases List.mem_append.1 he with h1 | h1
    · by_cases hd : t.delete_source
      · simp [hd] at h1
      · simp only [hd, not_false_iff, if_pos] at h1
        rcases List.mem_singleton.1 h1 with rfl
        rfl
    · rcases List.mem_singleton.1 h1 with rfl
      rfl

theorem handle_torrent_flagFalse (fuel : Nat) (st : DState) (dl ty src hash : String)
    (hk : keptCount (filesByHash (deleteByFullPath st.dh src) hash) ≠ 0) :
    (handle_torrent fuel st dl ty src hash).2.2.1 = false ∧
    ∀ e ∈ (handle_torrent fuel st dl ty src hash).2.1, Eff.isStop e = true := by
  have hflag : (keptCount (filesByHash (deleteByFullPath st.dh src) hash) == 0) = false :=
    beq_eq_false_iff_ne.mpr hk
  simp only [handle_torrent]
  cases hEq : (filesByHash (deleteByFullPath st.dh src) hash).isEmpty with
  | true =>
    rw [List.isEmpty_iff] at hEq
    exact absurd (by simp [hEq, keptCount]) hk
  | false =>
    rw [if_neg Bool.false_ne_true]
    rw [hflag]
    rcases hP : primaryDisposal st.tt (dl ++ "-" ++ hash) false hash with ⟨tt1, ops1, acc1, did⟩
    have hops1 : ∀ e ∈ ops1, Eff.isStop e = true := by
      have := primaryDisposal_stops st.tt (dl ++ "-" ++ hash) hash
      rw [hP] at this; exact this
    dsimp only
    rcases hS : __del_seed fuel st.seed ops1 did false acc1 with ⟨s1, o2, r⟩
    have h2 : StopExt ops1 o2 := by
      have := del_seed_stopExt fuel st.seed ops1 did acc1
      rw [hS] at this; exact this
    have hall2 : ∀ e ∈ o2, Eff.isStop e = true := stopExt_all hops1 h2
    cases r with
    | div => exact ⟨rfl, hall2⟩
    | exc => exact ⟨rfl, hall2⟩
    | ret a =>
      dsimp only
      by_cases hty : ty = "电视剧"
      · rw [if_pos hty]
        rcases hC : __del_collection fuel (deleteByFullPath st.dh src) s1 o2 src false hash
            (filesByHash (deleteByFullPath st.dh src) hash) a with ⟨s2, o3, a3⟩
        have h3 : StopExt o2 o3 := by
          have := del_collection_stopExt fuel (deleteByFullPath st.dh src) s1 o2 src hash
            (filesByHash (deleteByFullPath st.dh src) hash) a
          rw [hC] at this; exact this
        exact ⟨rfl, stopExt_all hall2 h3⟩
      · rw [if_neg hty]
        exact ⟨rfl, hall2⟩



theorem pyLtList_trans : ∀ (a b c : List Char),
    pyLtList a b = true → pyLtList b c = true → pyLtList a c = true := by
  intro a
  induction a with
  | nil =>
    intro b c h1 h2
    cases b with
    | nil => simp [pyLtList] at h1
    | cons y ys =>
      cases c with
      | nil => simp [pyLtList] at h2
      | cons z zs => simp [pyLtList]
  | cons x xs ih =>
    intro b c h1 h2
    cases b with
    | nil => simp [pyLtList] at h1
    | cons y ys =>
      cases c with
      | nil => simp [pyLtList] at h2
      | cons z zs =>
        simp only [pyLtList] at h1 h2 ⊢
        by_cases hxy : x < y
        · by_cases hyz : y < z
          · rw [if_pos (lt_trans hxy hyz)]
          · rw [if_neg hyz] at h2
            by_cases hzy : z < y
            · rw [if_pos hzy] at h2; exact absurd h2 (by simp)
            · rw [if_neg hzy] at h2
              have hyz' : y = z := le_antisymm (not_lt.mp hzy) (not_lt.mp hyz)
              subst hyz'
              rw [if_pos hxy]
        · rw [if_neg hxy] at h1
          by_cases hyx : y < x
          · rw [if_pos hyx] at h1; exact absurd h1 (by simp)
          · rw [if_neg hyx] at h1
            have hxy' : x = y := le_antisymm (not_lt.mp hyx) (not_lt.mp hxy)
            subst hxy'
            by_cases hxz : x < z
            · rw [if_pos hxz]
            · rw [if_neg hxz] at h2 ⊢
              by_cases hzx : z < x
              · rw [if_pos hzx] at h2; exact absurd h2 (by simp)
              · rw [if_neg hzx] at h2 ⊢
                exact ih ys zs h1 h2

theorem pyLtList_total : ∀ (a b : List Char),
    pyLtList a b = false → pyLtList b a = true ∨ a = b := by
  intro a
  induction a with
  | nil =>
    intro b h
    cases b with
    | nil => exact Or.inr rfl
    | cons y ys => simp [pyLtList] at h
  | cons x xs ih =>
    intro b h
    cases b with
    | nil => exact Or.inl (by simp [pyLtList])
    | cons y ys =>
      simp only [pyLtList] at h ⊢
      by_cases hxy : x < y
      · rw [if_pos hxy] at h; exact absurd h (by simp)
      · rw [if_neg hxy] at h
        by_cases hyx : y < x
        · rw [if_pos hyx]; exact Or.inl rfl
        · rw [if_neg hyx] at h
          rw [if_neg hyx, if_neg hxy]
          have hxy' : x = y := le_antisymm (not_lt.mp hyx) (not_lt.mp hxy)
          rcases ih ys h with h' | h'
          · exact Or.inl h'
          · subst h'; subst hxy'; exact Or.inr rfl

theorem strEqOfData {a b : String} (h : a.data = b.data) : a = b := by
  cases a; cases b; exact congrArg String.mk h

theorem pyLt_trans {a b c : String} (h1 : pyLt a b = true) (h2 : pyLt b c = true) :
    pyLt a c = true :=
  pyLtList_trans a.data b.data c.data h1 h2

theorem pyLt_total {a b : String} (h : pyLt a b = false) : pyLt b a = true ∨ a = b := by
  rcases pyLtList_total a.data b.data h with h' | h'
  · exact Or.inl h'
  · exact Or.inr (strEqOfData h')

theorem maxDateFold_cons (b : String) (x : TransferRec) (xs : List TransferRec) :
    maxDateFold b (x :: xs) = maxDateFold (if pyLt b x.date then x.date else b) xs := rfl

theorem pyLt_maxDateFold (t : String) : ∀ (l : List TransferRec) (b : String),
    pyLt t (maxDateFold b l) = true ↔ pyLt t b = true ∨ ∃ r ∈ l, pyLt t r.date = true := by
  intro l
  induction l with
  | nil => intro b; simp [maxDateFold]
  | cons x xs ih =>
    intro b
    rw [maxDateFold_cons]
    constructor
    · intro h
      rcases (ih _).1 h with h' | h'
      · by_cases hb : pyLt b x.date = true
        · rw [if_pos hb] at h'
          exact Or.inr ⟨x, List.mem_cons_self x xs, h'⟩
        · rw [if_neg hb] at h'
          exact Or.inl h'
      · rcases h' with ⟨r, hr, hlt⟩
        exact Or.inr ⟨r, List.mem_cons_of_mem x hr, hlt⟩
    · intro h
      apply (ih _).2
      rcases h with h' | ⟨r, hr, hlt⟩
      · by_cases hb : pyLt b x.date = true
        · left; rw [if_pos hb]; exact pyLt_trans h' hb
        · left; rw [if_neg hb]; exact h'
      · rcases List.mem_cons.1 hr with rfl | hr'
        · left
          by_cases hb : pyLt b r.date = true
          · rw [if_pos hb]; exact hlt
          · rw [if_neg hb]
            have hbf : pyLt b r.date = false := Bool.eq_false_iff.mpr hb
            rcases pyLt_total hbf with h2 | h2
            · exact pyLt_trans hlt h2
            · rw [h2]; exact hlt
        · exact Or.inr ⟨r, hr', hlt⟩



theorem cycSeed_div : ∀ (fuel : Nat),
    (∀ (ops : List Eff) (flag : Bool) (acc : List String),
      (__del_seed fuel cycSeedStore ops "A" flag acc).2.2 = SeedRes.div) ∧
    (∀ (ops : List Eff) (flag : Bool) (acc : List String),
      (__del_seed fuel cycSeedStore ops "B" flag acc).2.2 = SeedRes.div) := by
  intro fuel
  induction fuel with
  | zero => exact ⟨fun _ _ _ => rfl, fun _ _ _ => rfl⟩
  | succ n ih =>
    constructor
    · intro ops flag acc
      have hA : lookupSeed cycSeedStore "A" = [⟨"d", ["B"]⟩] := by decide
      simp only [__del_seed, hA]
      dsimp only [seedHistsF]
      rw [if_neg (by decide)]
      dsimp only [seedTorrentsF]
      rcases hE : __del_seed n cycSeedStore
          (ops ++ [if flag = true then Eff.removeTorrent "B" (some "d")
                   else Eff.stopTorrent "B" (some "d")]) "B" flag (acc ++ ["B"])
        with ⟨s1, o1, r⟩
      have hr : r = SeedRes.div := by
        have := ih.2 (ops ++ [if flag = true then Eff.removeTorrent "B" (some "d")
                              else Eff.stopTorrent "B" (some "d")]) flag (acc ++ ["B"])
        rw [hE] at this; exact this
      subst hr
      rfl
    · intro ops flag acc
      have hB : lookupSeed cycSeedStore "B" = [⟨"d", ["A"]⟩] := by decide
      simp only [__del_seed, hB]
      dsimp only [seedHistsF]
      rw [if_neg (by decide)]
      dsimp only [seedTorrentsF]
      rcases hE : __del_seed n cycSeedStore
          (ops ++ [if flag = true then Eff.removeTorrent "A" (some "d")
                   else Eff.stopTorrent "A" (some "d")]) "A" flag (acc ++ ["A"])
        with ⟨s1, o1, r⟩
      have hr : r = SeedRes.div := by
        have := ih.1 (ops ++ [if flag = true then Eff.removeTorrent "A" (some "d")
                              else Eff.stopTorrent "A" (some "d")]) flag (acc ++ ["A"])
        rw [hE] at this; exact this
      subst hr
      rfl



theorem clearFs_del_source (env : Env) : (clearFs env).del_source = env.del_source := rfl

theorem clearFs_dl (env : Env) : (clearFs env).default_downloader = env.default_downloader := rfl

theorem clearFs_st (env : Env) : (clearFs env).st = env.st := rfl

theorem clearFs_ledger (env : Env) : (clearFs env).ledger = env.ledger := rfl

theorem fsDeleteStep_noLedger (env : Env) (fs : List String) (src : String) :
    ((fsDeleteStep env fs src).2).filter Eff.isDelLedger = [] := by
  unfold fsDeleteStep
  split_ifs <;> rfl

theorem processOne_fsInv (fuel : Nat) (env : Env) (ev : DelEvent) (r : TransferRec)
    (st1 st2 : WState) (hds : st1.ds = st2.ds) :
    (processOne fuel env ev st1 r).1.ds = (processOne fuel (clearFs env) ev st2 r).1.ds ∧
    ((processOne fuel env ev st1 r).2.1).filter Eff.isDelLedger =
      ((processOne fuel (clearFs env) ev st2 r).2.1).filter Eff.isDelLedger ∧
    (processOne fuel env ev st1 r).2.2 = (processOne fuel (clearFs env) ev st2 r).2.2 := by
  simp only [processOne, clearFs_del_source, clearFs_dl]
  by_cases hskip : r.dest ≠ ev.media_path ∧ ¬ pyIn r.title ev.media_name = true
  · rw [if_pos hskip, if_pos hskip]
    exact ⟨hds, rfl, rfl⟩
  · rw [if_neg hskip, if_neg hskip]
    by_cases hdel : env.del_source = true ∧ r.src ≠ ""
    · rw [if_pos hdel, if_pos hdel]
      rcases hF1 : fsDeleteStep env st1.fs r.src with ⟨fs1, fsE1⟩
      rcases hF2 : fsDeleteStep (clearFs env) st2.fs r.src with ⟨fs2, fsE2⟩
      have hN1 : fsE1.filter Eff.isDelLedger = [] := by
        have := fsDeleteStep_noLedger env st1.fs r.src; rw [hF1] at this; exact this
      have hN2 : fsE2.filter Eff.isDelLedger = [] := by
        have := fsDeleteStep_noLedger (clearFs env) st2.fs r.src; rw [hF2] at this; exact this
      by_cases hdh : r.download_hash ≠ ""
      · rw [if_pos hdh, if_pos hdh]
        rw [hds]
        rcases hH : handle_torrent fuel st2.ds env.default_downloader r.type r.src
            r.download_hash with ⟨ds1, ops, flag, success, hashes⟩
        cases success with
        | false =>
          refine ⟨rfl, ?_, rfl⟩
          simp [List.filter_cons, List.filter_append, hN1, hN2, Eff.isDelLedger]
        | true =>
          cases hashes with
          | ids l =>
            refine ⟨rfl, ?_, rfl⟩
            simp [List.filter_cons, List.filter_append, hN1, hN2, Eff.isDelLedger]
          | null =>
            refine ⟨rfl, ?_, rfl⟩
            simp [List.filter_cons, List.filter_append, hN1, hN2, Eff.isDelLedger]
          | zero =>
            refine ⟨rfl, ?_, rfl⟩
            simp [List.filter_cons, List.filter_append, hN1, hN2, Eff.isDelLedger]
      · rw [if_neg hdh, if_neg hdh]
        refine ⟨hds, ?_, rfl⟩
        simp only [List.filter_append, hN1, hN2]
    · rw [if_neg hdel, if_neg hdel]
      exact ⟨hds, rfl, rfl⟩

theorem processRecords_fsInv (fuel : Nat) (env : Env) (ev : DelEvent) :
    ∀ (rs : List TransferRec) (st1 st2 : WState), st1.ds = st2.ds →
    (processRecords fuel env ev st1 rs).1.ds =
      (processRecords fuel (clearFs env) ev st2 rs).1.ds ∧
    ((processRecords fuel env ev st1 rs).2.1).filter Eff.isDelLedger =
      ((processRecords fuel (clearFs env) ev st2 rs).2.1).filter Eff.isDelLedger ∧
    (processRecords fuel env ev st1 rs).2.2 =
      (processRecords fuel (clearFs env) ev st2 rs).2.2 := by
  intro rs
  induction rs with
  | nil => intro st1 st2 hds; exact ⟨hds, rfl, rfl⟩
  | cons r rest ih =>
    intro st1 st2 hds
    simp only [processRecords]
    have h1 := processOne_fsInv fuel env ev r st1 st2 hds
    rcases hP1 : processOne fuel env ev st1 r with ⟨st1', e1, n1⟩
    rcases hP2 : processOne fuel (clearFs env) ev st2 r with ⟨st2', e2, n2⟩
    rw [hP1, hP2] at h1
    have h2 := ih st1' st2' h1.1
    rcases hR1 : processRecords fuel env ev st1' rest with ⟨st1'', es1, ns1⟩
    rcases hR2 : processRecords fuel (clearFs env) ev st2' rest with ⟨st2'', es2, ns2⟩
    rw [hR1, hR2] at h2
    refine ⟨h2.1, ?_, ?_⟩
    · simp only [List.filter_append, h1.2.1, h2.2.1]
    · exact congrArg₂ HAdd.hAdd h1.2.2 h2.2.2



/-- C1: when the download-history query for a torrent hash returns at
least one file still marked kept (state 1), `handle_torrent` reports
fullyRemoved = false and every torrent command it issues (including the
cascades) is a pause, never a remove; conversely a fullyRemoved = true
result is only possible when zero returned files are kept. -/
theorem kept_files_block_removal (fuel : Nat) (st : DState) (dl ty src hash : String) :
    (0 < keptCount (filesByHash (deleteByFullPath st.dh src) hash) →
      (handle_torrent fuel st dl ty src hash).2.2.1 = false ∧
      ((handle_torrent fuel st dl ty src hash).2.1).all Eff.isStop = true) ∧
    ((handle_torrent fuel st dl ty src hash).2.2.1 = true →
      keptCount (filesByHash (deleteByFullPath st.dh src) hash) = 0) := by
  constructor
  · intro h
    have hc := handle_torrent_flagFalse fuel st dl ty src hash (Nat.pos_iff_ne_zero.mp h)
    exact ⟨hc.1, List.all_eq_true.mpr hc.2⟩
  · intro hT
    by_contra hk
    have hc := (handle_torrent_flagFalse fuel st dl ty src hash hk).1
    rw [hT] at hc
    exact absurd hc (by decide)

/-- Witness for C1: the spec scenario of a torrent with two files, one
kept and one not. -/
theorem kept_files_block_removal_witness :
    0 < keptCount (filesByHash (deleteByFullPath twoFileDs.dh "/s/b.mkv") "h") ∧
    (handle_torrent 5 twoFileDs "dl" "电影" "/s/b.mkv" "h").2.2.1 = false ∧
    ((handle_torrent 5 twoFileDs "dl" "电影" "/s/b.mkv" "h").2.1).all Eff.isStop = true :=
  ⟨by decide,
   (kept_files_block_removal 5 twoFileDs "dl" "电影" "/s/b.mkv" "h").1 (by decide)⟩

/-- C2 (claim is right, code is wrong): on the cyclic collaborator
store A link B link A, `__del_seed` recurses forever — the result is
fuel exhaustion for every fuel bound, because the store entry is only
cleared after the loop, so the cycle is re-entered before any clearing
and the same torrent id is processed again and again.  In Python this
is unbounded recursion until RecursionError. -/
theorem seed_cascade_diverges_on_cycle (fuel : Nat) (ops : List Eff) (flag : Bool)
    (acc : List String) :
    (__del_seed fuel cycSeedStore ops "A" flag acc).2.2 = SeedRes.div :=
  (cycSeed_div fuel).1 ops flag acc

/-- C3: when a filesystem object still exists at the canonical path of
the event, `__sync_del` returns immediately with no effects at all: no
ledger query or deletion, no file deletion, no torrent command, no
history entry, and an error count of zero. -/
theorem race_guard_no_effects (fuel : Nat) (env : Env) (ev : DelEvent)
    (h : env.st.fs.contains ev.media_path = true) :
    __sync_del fuel env ev = ([], 0) := by
  unfold __sync_del
  by_cases hmt : ev.media_type = ""
  · rw [if_pos hmt]
  · rw [if_neg hmt, if_pos h]

/-- Witness for C3: a concrete event whose path still exists. -/
theorem race_guard_no_effects_witness : __sync_del 5 raceEnv raceEv = ([], 0) :=
  race_guard_no_effects 5 raceEnv raceEv (by decide)



/-- C4: when the identity tier of the matcher returns nothing, the
match falls back to a ledger query by exact canonical destination path
alone (ignoring identity entirely, third conjunct); a singleton
dest-match is then returned exactly; and the fallback is attempted only
when the identity tier yielded nothing (second conjunct). -/
theorem path_fallback_tier (ledger : List TransferRec) (ev : DelEvent) :
    ((__get_transfer_his ledger ev.media_type ev.media_name ev.media_path ev.tmdb_id
        ev.season_num ev.episode_num).2.1 = [] →
      (matchRecords ledger ev).2.1 = getBy ledger { dest := some ev.media_path } ∧
      ∀ r : TransferRec, getBy ledger { dest := some ev.media_path } = [r] →
        (matchRecords ledger ev).2.1 = [r]) ∧
    ((__get_transfer_his ledger ev.media_type ev.media_name ev.media_path ev.tmdb_id
        ev.season_num ev.episode_num).2.1 ≠ [] →
      (matchRecords ledger ev).2.1 =
        (__get_transfer_his ledger ev.media_type ev.media_name ev.media_path ev.tmdb_id
          ev.season_num ev.episode_num).2.1) ∧
    getBy ledger { dest := some ev.media_path } =
      ledger.filter (fun r => decide (r.dest = ev.media_path)) := by
  refine ⟨?_, ?_, ?_⟩
  · intro h
    have hm : (matchRecords ledger ev).2.1 = getBy ledger { dest := some ev.media_path } := by
      unfold matchRecords
      rcases hG : __get_transfer_his ledger ev.media_type ev.media_name ev.media_path
          ev.tmdb_id ev.season_num ev.episode_num with ⟨msg, hist1, q1⟩
      rw [hG] at h
      have h1 : hist1 = [] := h
      subst h1
      simp
    exact ⟨hm, fun r hr => by rw [hm, hr]⟩
  · intro h
    unfold matchRecords
    rcases hG : __get_transfer_his ledger ev.media_type ev.media_name ev.media_path
        ev.tmdb_id ev.season_num ev.episode_num with ⟨msg, hist1, q1⟩
    rw [hG] at h
    have h1 : hist1 ≠ [] := h
    dsimp only
    rw [if_neg (by simpa [List.isEmpty_iff] using h1)]
  · unfold getBy
    apply List.filter_congr
    intro r _
    simp

/-- Witness for C4: the identity tier misses (stored external id 999,
event id 123), the path fallback returns exactly the singleton
record. -/
theorem path_fallback_tier_witness :
    (matchRecords [pathOnlyRec] pathOnlyEv).2.1 = [pathOnlyRec] :=
  ((path_fallback_tier [pathOnlyRec] pathOnlyEv).1 (by decide)).2 pathOnlyRec (by decide)

/-- C5 counterexample: in the collection cascade with an initial
remove decision, sibling h1 has one kept file and the later sibling h2
has none; the claim says h2 is removed regardless, but the code pauses
h2 because the downgraded flag is never re-evaluated to remove. -/
theorem collection_not_independent_cex :
    keptCount (filesByHash colDh "h2") = 0 ∧
    Eff.removeTorrent "h2" (some "d") ∉
      (__del_collection 3 colDh [] [] colSrc true "h0" colCurFiles (some [])).2.1 ∧
    Eff.stopTorrent "h2" (some "d") ∈
      (__del_collection 3 colDh [] [] colSrc true "h0" colCurFiles (some [])).2.1 := by
  decide

/-- C5 amended: the kept rule is re-evaluated per sibling only to
downgrade the decision; once the decision is pause, every torrent
command issued by the remainder of the collection cascade is a pause,
never a remove, even for a sibling with zero kept files. -/
theorem collection_pause_sticky (fuel : Nat) (dh : List DFile) (seed : SeedStore)
    (ops : List Eff) (src hash : String) (dfiles : List DFile)
    (acc : Option (List String)) :
    ((__del_collection fuel dh seed ops src false hash dfiles acc).2.1).all
      (fun e => decide (e ∈ ops) || Eff.isStop e) = true := by
  apply List.all_eq_true.mpr
  intro e he
  rcases del_collection_stopExt fuel dh seed ops src hash dfiles acc e he with h | h
  · simp [h]
  · simp [h]

/-- Witness for C5: the two-sibling scenario under a pause entry
decision emits only pause commands. -/
theorem collection_pause_sticky_witness :
    ((__del_collection 3 colDh [] [] colSrc false "h0" colCurFiles (some [])).2.1).all
      (fun e => decide (e ∈ ([] : List Eff)) || Eff.isStop e) = true :=
  collection_pause_sticky 3 colDh [] [] colSrc "h0" colCurFiles (some [])



/-- C6 counterexample: a record whose source-file deletion raises a
filesystem error; the error is logged but the reported error total
stays zero, contradicting the claim that every filesystem error is
counted. -/
theorem fs_error_not_counted_cex :
    Eff.fsError "/dl/a.mkv" ∈ (__sync_del 5 fsFailEnv fsFailEv).1 ∧
    (__sync_del 5 fsFailEnv fsFailEv).2 = 0 := by decide

/-- C6 amended: a filesystem deletion error raised while processing
one record is caught and logged but not counted: removing the injected
filesystem failures changes neither which ledger rows are deleted nor
the reported error total (first two conjuncts, so processing of the
remaining records continues and the entry point completes either way);
a record whose torrent disposal reports failure contributes exactly one
to the error total (third conjunct). -/
theorem fs_errors_caught_not_counted (fuel : Nat) (env : Env) (ev : DelEvent) :
    ((__sync_del fuel env ev).1).filter Eff.isDelLedger =
      ((__sync_del fuel (clearFs env) ev).1).filter Eff.isDelLedger ∧
    (__sync_del fuel env ev).2 = (__sync_del fuel (clearFs env) ev).2 ∧
    (∀ (st : WState) (r : TransferRec),
      (r.dest = ev.media_path ∨ pyIn r.title ev.media_name = true) →
      env.del_source = true → r.src ≠ "" → r.download_hash ≠ "" →
      (handle_torrent fuel st.ds env.default_downloader r.type r.src
          r.download_hash).2.2.2.1 = false →
      (processOne fuel env ev st r).2.2 = 1) := by
  have hmain :
      ((__sync_del fuel env ev).1).filter Eff.isDelLedger =
        ((__sync_del fuel (clearFs env) ev).1).filter Eff.isDelLedger ∧
      (__sync_del fuel env ev).2 = (__sync_del fuel (clearFs env) ev).2 := by
    unfold __sync_del
    simp only [clearFs_st, clearFs_ledger]
    by_cases hmt : ev.media_type = ""
    · rw [if_pos hmt, if_pos hmt]
      exact ⟨rfl, rfl⟩
    · rw [if_neg hmt, if_neg hmt]
      by_cases hfs : env.st.fs.contains ev.media_path = true
      · rw [if_pos hfs, if_pos hfs]
        exact ⟨rfl, rfl⟩
      · rw [if_neg hfs, if_neg hfs]
        rcases hM : matchRecords env.ledger ev with ⟨msg, hist, q⟩
        dsimp only
        by_cases hemp : hist.isEmpty = true
        · rw [if_pos hemp, if_pos hemp]
          exact ⟨rfl, rfl⟩
        · rw [if_neg hemp, if_neg hemp]
          by_cases hg : tsGuardAborts ev.delete_time hist = true
          · rw [if_pos hg, if_pos hg]
            exact ⟨rfl, rfl⟩
          · rw [if_neg hg, if_neg hg]
            have hinv := processRecords_fsInv fuel env ev hist env.st env.st rfl
            rcases hR1 : processRecords fuel env ev env.st hist with ⟨st1, effs1, errs1⟩
            rcases hR2 : processRecords fuel (clearFs env) ev env.st hist with ⟨st2, effs2, errs2⟩
            rw [hR1, hR2] at hinv
            dsimp only at hinv
            constructor
            · simp only [List.filter_append, hinv.2.1]
            · exact hinv.2.2
  refine ⟨hmain.1, hmain.2, ?_⟩
  intro st r hpass hdel hsrc hhash hfail
  have hns : ¬(r.dest ≠ ev.media_path ∧ ¬ pyIn r.title ev.media_name = true) := by
    rcases hpass with h | h
    · exact fun hc => hc.1 h
    · exact fun hc => hc.2 h
  simp only [processOne]
  rw [if_neg hns, if_pos ⟨hdel, hsrc⟩]
  rcases hF : fsDeleteStep env st.fs r.src with ⟨fs1, fsE⟩
  rw [if_pos hhash]
  rcases hH : handle_torrent fuel st.ds env.default_downloader r.type r.src
      r.download_hash with ⟨ds1, ops, flag, success, hashes⟩
  have hs : success = false := by
    have := hfail; rw [hH] at this; exact this
  subst hs
  rfl

/-- Witness for C6: a record with a download hash that has no files in
the download-history store; its disposal reports failure and the error
count of its processing step is one. -/
theorem fs_errors_caught_not_counted_witness :
    (processOne 5 dlFailEnv fsFailEv ⟨[], ⟨[], [], []⟩⟩ dlFailRec).2.2 = 1 :=
  (fs_errors_caught_not_counted 5 dlFailEnv fsFailEv).2.2 ⟨[], ⟨[], [], []⟩⟩ dlFailRec
    (Or.inl rfl) rfl (by decide) (by decide) (by decide)



/-- C7: the concrete Windows-drive translation of the spec holds, and
in general a rule line is split at its last colon, its source half
tested case-insensitively as a prefix of the slash-normalized input,
and the first matching rule rewrites the path (prefix replaced, double
slashes collapsed) without consulting any later rule. -/
theorem convert_path_first_match :
    _convert_path "F:\\emby:/media/emby" "F:\\emby\\show\\ep.mkv" = "/media/emby/show/ep.mkv" ∧
    ∀ (line : String) (rest : List String) (p : String),
      pyStrip line ≠ "" →
      (pyStrip line).data.contains ':' = true →
      startsWithCI p (normSlash (pyStrip (rsplitColon (pyStrip line)).1)) = true →
      convertLoop (line :: rest) p =
        collapseSlash ⟨(normSlash (pyStrip (rsplitColon (pyStrip line)).2)).data ++
          p.data.drop (normSlash (pyStrip (rsplitColon (pyStrip line)).1)).data.length⟩ ∧
      convertLoop (line :: rest) p = convertLoop [line] p := by
  constructor
  · decide
  · intro line rest p h1 h2 h3
    have hcond : ¬(pyStrip line = "" ∨ ¬ (pyStrip line).data.contains ':' = true) := by
      push_neg
      exact ⟨h1, h2⟩
    constructor
    · simp only [convertLoop]
      rw [if_neg hcond, if_pos h3]
    · simp only [convertLoop]
      rw [if_neg hcond, if_pos h3, if_neg hcond, if_pos h3]

/-- Witness for C7: the first rule matches, the second is never
consulted. -/
theorem convert_path_first_match_witness :
    convertLoop ["F:\\emby:/media/emby", "a:/b"] "F:/emby/show/ep.mkv" =
      convertLoop ["F:\\emby:/media/emby"] "F:/emby/show/ep.mkv" :=
  (convert_path_first_match.2 "F:\\emby:/media/emby" ["a:/b"] "F:/emby/show/ep.mkv"
    (by decide) (by decide) (by decide)).2

/-- C8: when the event carries a timestamp and a resolved record has a
strictly newer transfer date (string-lexicographic comparison),
`__sync_del` aborts before mutating anything: every emitted effect is a
ledger query. -/
theorem timestamp_guard_blocks_mutation (fuel : Nat) (env : Env) (ev : DelEvent)
    (t : String) (hdt : ev.delete_time = some t)
    (hnew : ∃ r ∈ (matchRecords env.ledger ev).2.1, pyLt t r.date = true) :
    ((__sync_del fuel env ev).1).all (fun e => e == Eff.queryLedger) = true := by
  apply List.all_eq_true.mpr
  unfold __sync_del
  by_cases hmt : ev.media_type = ""
  · rw [if_pos hmt]
    intro e he
    simp at he
  · rw [if_neg hmt]
    by_cases hfs : env.st.fs.contains ev.media_path = true
    · rw [if_pos hfs]
      intro e he
      simp at he
    · rw [if_neg hfs]
      rcases hM : matchRecords env.ledger ev with ⟨msg, hist, q⟩
      rw [hM] at hnew
      have hnew' : ∃ r ∈ hist, pyLt t r.date = true := hnew
      rcases hnew' with ⟨r0, hr0, hlt⟩
      cases hist with
      | nil => simp at hr0
      | cons rr rs =>
        dsimp only
        rw [if_neg (by simp)]
        have hguard : tsGuardAborts ev.delete_time (rr :: rs) = true := by
          rw [hdt]
          simp only [tsGuardAborts]
          apply (pyLt_maxDateFold t rs rr.date).2
          rcases List.mem_cons.1 hr0 with h | h
          · exact Or.inl (h ▸ hlt)
          · exact Or.inr ⟨r0, h, hlt⟩
        rw [if_pos hguard]
        intro e he
        have := List.eq_of_mem_replicate he
        simp [this]

/-- Witness for C8: one record transferred on 2024-06-01, deletion
event stamped 2024-01-01. -/
theorem timestamp_guard_blocks_mutation_witness :
    ((__sync_del 5 newerEnv newerEv).1).all (fun e => e == Eff.queryLedger) = true :=
  timestamp_guard_blocks_mutation 5 newerEnv newerEv "2024-01-01" rfl
    ⟨newerRec, by decide, by decide⟩



/-- C9 counterexample: a mapping rule whose source prefix is empty
after trimming is not skipped; the empty prefix matches every path, so
the rule rewrites `/x` to `/media/x` instead of leaving it
untouched. -/
theorem empty_prefix_rule_rewrites_cex :
    _convert_path ":/media" "/x" ≠ "/x" ∧ _convert_path ":/media" "/x" = "/media/x" := by
  decide

/-- C9 amended: empty input is returned unchanged and a rule line
without a colon is skipped; but a rule whose source prefix is empty
after trimming is not skipped — it matches every path and prepends its
canonical prefix. -/
theorem convert_path_edge_cases :
    (∀ lib : String, _convert_path lib "" = "") ∧
    (∀ (line : String) (rest : List String) (p : String),
      (pyStrip line).data.contains ':' = false →
      convertLoop (line :: rest) p = convertLoop rest p) ∧
    (∀ (line : String) (rest : List String) (p : String),
      pyStrip line ≠ "" →
      (pyStrip line).data.contains ':' = true →
      normSlash (pyStrip (rsplitColon (pyStrip line)).1) = "" →
      convertLoop (line :: rest) p =
        collapseSlash ⟨(normSlash (pyStrip (rsplitColon (pyStrip line)).2)).data ++ p.data⟩) := by
  refine ⟨fun lib => rfl, ?_, ?_⟩
  · intro line rest p h
    simp only [convertLoop]
    rw [if_pos (Or.inr (by rw [h]; exact Bool.false_ne_true))]
  · intro line rest p h1 h2 h3
    have hcond : ¬(pyStrip line = "" ∨ ¬ (pyStrip line).data.contains ':' = true) := by
      push_neg
      exact ⟨h1, h2⟩
    have hsw : startsWithCI p (normSlash (pyStrip (rsplitColon (pyStrip line)).1)) = true := by
      rw [h3]
      cases p with
      | mk d => cases d <;> rfl
    simp only [convertLoop]
    rw [if_neg hcond, if_pos hsw, h3]
    rfl

/-- Witness for C9: the no-colon rule `nocolon` is skipped; the
empty-prefix rule `:/media` rewrites a path it should have left
alone. -/
theorem convert_path_edge_cases_witness :
    convertLoop ["nocolon"] "/x" = convertLoop [] "/x" ∧
    convertLoop [":/media"] "/x" =
      collapseSlash ⟨(normSlash (pyStrip (rsplitColon (pyStrip ":/media")).2)).data ++
        ("/x" : String).data⟩ :=
  ⟨convert_path_edge_cases.2.1 "nocolon" [] "/x" (by decide),
   convert_path_edge_cases.2.2 ":/media" [] "/x" (by decide) (by decide) (by decide)⟩



/-- C10 counterexample: when the malformed link record sits in a
nested store entry and a sibling torrent is still pending in the
parent frame, the None return does not reach `handle_torrent` as an
id list — appending the pending sibling to None raises, the exception
is caught, and `handle_torrent` reports `(False, False, 0)` (an error
counted by the orchestrator), not None. -/
theorem malformed_seed_reports_zero_cex :
    (handle_torrent 10 nestedBadDs "dl" "电影" "/s" "A").2.2 =
      (false, false, TorrentHashes.zero) ∧
    TorrentHashes.zero ≠ TorrentHashes.null := by decide

/-- C10 amended: when the first link record of the looked-up store
entry has a missing downloader name or a missing torrent list,
`__del_seed` returns None at once — the remaining records of that
entry are unprocessed, the store entry is not cleared even when the
action was remove, and the accumulated ids are discarded (first
conjunct).  In that direct case `handle_torrent` reports
success with a None id list and the seed store is untouched, and the
orchestrator catches the TypeError from extending None, logging the
failure without counting it (remaining conjuncts).  If instead a
sibling torrent was still pending in an ancestor frame, the None
raises inside the cascade and `handle_torrent` reports a counted
failure. -/
theorem malformed_seed_early_return :
    (∀ (n : Nat) (seed : SeedStore) (ops : List Eff) (id : String) (flag : Bool)
      (acc : List String) (h : SeedRec) (rest : List SeedRec),
      lookupSeed seed id = h :: rest →
      (h.downloader = "" ∨ h.torrents = []) →
      __del_seed (n + 1) seed ops id flag acc = (seed, ops, SeedRes.ret none)) ∧
    (handle_torrent 5 badSeedDs "dl" "电影" "/s" "A").2.2 =
      (true, true, TorrentHashes.null) ∧
    (handle_torrent 5 badSeedDs "dl" "电影" "/s" "A").1.seed = badSeedStore ∧
    __sync_del 5 seedNullEnv seedNullEv =
      ([Eff.queryLedger, Eff.delLedger 7, Eff.removeTorrent "A" none, Eff.seedDelError,
        Eff.appendHistory], 0) := by
  refine ⟨?_, by decide, by decide, by decide⟩
  intro n seed ops id flag acc h rest hlk hbad
  simp only [__del_seed, hlk]
  dsimp only [seedHistsF]
  rw [if_pos hbad]

/-- Witness for C10: the malformed store entry makes the cascade
return None with the store intact. -/
theorem malformed_seed_early_return_witness :
    __del_seed 3 badSeedStore [] "A" true ["A"] = (badSeedStore, [], SeedRes.ret none) :=
  malformed_seed_early_return.1 2 badSeedStore [] "A" true ["A"] ⟨"", ["X"]⟩ []
    (by decide) (by decide)


end MediaSyncDel
